import Mathlib

/-!
Verification development for the Tracker repository (backend/main.py).

The backend stores three SQLite tables — apps, activity_logs,
tracked_identifiers — and exposes HTTP endpoints over them.  We embed the
tables as Lean lists (rows in insertion order, surrogate ids handed out by a
counter, mirroring AUTOINCREMENT), and each endpoint handler as an executable
function from the store (plus a clock) to a new store and a response.
Machine integers do not overflow at these sizes; SQLite INTEGER durations are
modelled as Int, ids as Nat, TEXT columns as String.

Python-specific behaviours that the handlers rely on (datetime.fromisoformat,
datetime.strptime with format YYYY-MM-DD, re.search for the handful of fixed
regular expressions, str.strip/lower, SQL LIKE) are embedded as executable
functions over lists of characters, faithful to the ASCII behaviour the
application exercises; unicode-only leniencies of Python (non-ASCII digits,
locale case folding) and the dash-less ISO-8601 basic format are outside the
model.
-/

/-! ## Characters and digits -/

/-- Value of an ASCII digit character, 10 when the character is not a digit. -/
def digitVal (c : Char) : Nat :=
  if c = '0' then 0 else if c = '1' then 1 else if c = '2' then 2
  else if c = '3' then 3 else if c = '4' then 4 else if c = '5' then 5
  else if c = '6' then 6 else if c = '7' then 7 else if c = '8' then 8
  else if c = '9' then 9 else 10

/-- ASCII digit test (Python re `\d` on the ASCII strings the app handles). -/
def isDigitC (c : Char) : Bool := digitVal c < 10

/-- The digit character for a value below 10. -/
def digitChar10 (n : Nat) : Char :=
  if n = 0 then '0' else if n = 1 then '1' else if n = 2 then '2'
  else if n = 3 then '3' else if n = 4 then '4' else if n = 5 then '5'
  else if n = 6 then '6' else if n = 7 then '7' else if n = 8 then '8'
  else '9'

/-- Python `\s` (ASCII whitespace actually produced by the app's inputs). -/
def isWsC (c : Char) : Bool :=
  c = ' ' || c = '\t' || c = '\n' || c = '\x0d' || c = '\x0b' || c = '\x0c'

/-- Python re word character `\w` restricted to ASCII. -/
def isWordC (c : Char) : Bool :=
  isDigitC c || ('a' ≤ c && c ≤ 'z') || ('A' ≤ c && c ≤ 'Z') || c = '_'

/-- Character class `[a-zA-Z0-9.\-_\s]` used by the chatbot regexes. -/
def isFragmentC (c : Char) : Bool :=
  isDigitC c || ('a' ≤ c && c ≤ 'z') || ('A' ≤ c && c ≤ 'Z') ||
  c = '.' || c = '-' || c = '_' || isWsC c

/-- Character class `[a-zA-Z0-9.\-_]` of the free-text fallback. -/
def isTermC (c : Char) : Bool :=
  isDigitC c || ('a' ≤ c && c ≤ 'z') || ('A' ≤ c && c ≤ 'Z') ||
  c = '.' || c = '-' || c = '_'

/-- Numeric value of a digit string (the digits already validated). -/
def natOfDigits (cs : List Char) : Nat :=
  cs.foldl (fun acc c => 10 * acc + digitVal c) 0

/-- Two-digit zero-padded rendering, as Python date.isoformat emits. -/
def pad2 (n : Nat) : List Char :=
  [digitChar10 (n / 10 % 10), digitChar10 (n % 10)]

/-- Four-digit zero-padded rendering of a year. -/
def pad4 (n : Nat) : List Char :=
  [digitChar10 (n / 1000 % 10), digitChar10 (n / 100 % 10),
   digitChar10 (n / 10 % 10), digitChar10 (n % 10)]

/-! ## Small string helpers (Python str and SQLite TEXT behaviour) -/

/-- ASCII lowercase of one character (Python str.lower on the app's ASCII data). -/
def lowerC (c : Char) : Char :=
  if 'A' ≤ c && c ≤ 'Z' then Char.ofNat (c.toNat + 32) else c

/-- Python str.lower over a character list. -/
def lowerL (cs : List Char) : List Char := cs.map lowerC

/-- Python str.strip: drop leading and trailing whitespace. -/
def stripL (cs : List Char) : List Char :=
  ((cs.dropWhile isWsC).reverse.dropWhile isWsC).reverse

/-- Match a literal at the front, returning the remainder. -/
def dropLit : List Char → List Char → Option (List Char)
  | [], cs => some cs
  | _ :: _, [] => none
  | l :: ls, c :: cs => if c = l then dropLit ls cs else none

/-- Substring containment, Python `needle in hay`. -/
def containsSub (needle : List Char) : List Char → Bool
  | [] => (dropLit needle []).isSome
  | c :: cs => (dropLit needle (c :: cs)).isSome || containsSub needle cs

/-- Byte-wise lexicographic order on TEXT, as SQLite memcmp comparison. -/
def strLeL : List Char → List Char → Bool
  | [], _ => true
  | _ :: _, [] => false
  | a :: as, b :: bs =>
    if a.toNat < b.toNat then true
    else if a = b then strLeL as bs else false

/-- SQLite `x >= y` on TEXT columns, via the list order. -/
def strLe (a b : String) : Bool := strLeL a.data b.data

/-- SQL LIKE with `%` (any sequence) and `_` (any one character); both sides
are lowercased by the queries before matching, so plain character equality
suffices here. -/
def likeMatch : List Char → List Char → Bool
  | [], [] => true
  | [], _ :: _ => false
  | '%' :: p, s =>
    likeMatch p s || (match s with
      | [] => false
      | _ :: s2 => likeMatch ('%' :: p) s2)
  | '_' :: p, s =>
    (match s with
      | [] => false
      | _ :: s2 => likeMatch p s2)
  | c :: p, s =>
    (match s with
      | [] => false
      | c2 :: s2 => c = c2 && likeMatch p s2)
termination_by p s => (p.length, s.length)

/-- The condition `lower(col) LIKE lower('%frag%')` used by the chatbot SQL. -/
def likeContains (frag : String) (col : String) : Bool :=
  likeMatch ('%' :: lowerL frag.data ++ ['%']) (lowerL col.data)

/-! ## Calendar dates

The handlers move dates around as `YYYY-MM-DD` strings and do arithmetic with
`datetime.date` and `timedelta`, whose proleptic-Gregorian day ordinal we
embed with the standard civil-days conversion. -/

/-- Leap year in the proleptic Gregorian calendar. -/
def isLeap (y : Nat) : Bool := y % 4 = 0 && (y % 100 ≠ 0 || y % 400 = 0)

/-- Number of days of a month. -/
def daysInMonth (y m : Nat) : Nat :=
  if m = 2 then (if isLeap y then 29 else 28)
  else if m = 4 || m = 6 || m = 9 || m = 11 then 30 else 31

/-- Days since the civil epoch 1970-01-01 of a calendar date. -/
def daysFromCivil (y m d : Int) : Int :=
  let y2 : Int := if m ≤ 2 then y - 1 else y
  let era : Int := (if 0 ≤ y2 then y2 else y2 - 399) / 400
  let yoe : Int := y2 - era * 400
  let mp : Int := (m + 9) % 12
  let doy : Int := (153 * mp + 2) / 5 + d - 1
  let doe : Int := yoe * 365 + yoe / 4 - yoe / 100 + doy
  era * 146097 + doe - 719468

/-- Calendar date of a day count since 1970-01-01. -/
def civilFromDays (z0 : Int) : Int × Int × Int :=
  let z : Int := z0 + 719468
  let era : Int := (if 0 ≤ z then z else z - 146096) / 146097
  let doe : Int := z - era * 146097
  let yoe : Int := (doe - doe / 1460 + doe / 36524 - doe / 146096) / 365
  let y : Int := yoe + era * 400
  let doy : Int := doe - (365 * yoe + yoe / 4 - yoe / 100)
  let mp : Int := (5 * doy + 2) / 153
  let d : Int := doy - (153 * mp + 2) / 5 + 1
  let m : Int := if mp < 10 then mp + 3 else mp - 9
  (if m ≤ 2 then y + 1 else y, m, d)

/-- Strict ten-character `YYYY-MM-DD` with a valid proleptic-Gregorian date
(year at least 1, as datetime.MINYEAR requires). -/
def validYmdL (cs : List Char) : Bool :=
  match cs with
  | [y1, y2, y3, y4, '-', m1, m2, '-', d1, d2] =>
    isDigitC y1 && isDigitC y2 && isDigitC y3 && isDigitC y4 &&
    isDigitC m1 && isDigitC m2 && isDigitC d1 && isDigitC d2 &&
    (let y := natOfDigits [y1, y2, y3, y4]
     let mo := natOfDigits [m1, m2]
     let da := natOfDigits [d1, d2]
     1 ≤ y && 1 ≤ mo && mo ≤ 12 && 1 ≤ da && da ≤ daysInMonth y mo)
  | _ => false

/-- Strict validity on strings. -/
def validYmd (s : String) : Bool := validYmdL s.data

/-- Render a parsed date back to `YYYY-MM-DD` (date.isoformat). -/
def renderYmd (ymd : Nat × Nat × Nat) : String :=
  String.mk (pad4 ymd.1 ++ '-' :: pad2 ymd.2.1 ++ '-' :: pad2 ymd.2.2)

/-- Leading run of digits and the remainder. -/
def grabDigits (cs : List Char) : List Char × List Char :=
  match cs with
  | [] => ([], [])
  | c :: rest =>
    if isDigitC c then
      let (ds, r) := grabDigits rest
      (c :: ds, r)
    else ([], c :: rest)

/-- Python `datetime.strptime(s, "%Y-%m-%d")`, the shape part: four-digit
year, dash, one-or-two-digit month, dash, one-or-two-digit day, nothing
else. -/
def strptimeRaw (cs : List Char) : Option (Nat × Nat × Nat) :=
  match cs with
  | y1 :: y2 :: y3 :: y4 :: '-' :: rest =>
    if isDigitC y1 && isDigitC y2 && isDigitC y3 && isDigitC y4 then
      match grabDigits rest with
      | (mcs, '-' :: rest2) =>
        match grabDigits rest2 with
        | (dcs, []) =>
          if 1 ≤ mcs.length && mcs.length ≤ 2 && 1 ≤ dcs.length && dcs.length ≤ 2 then
            some (natOfDigits [y1, y2, y3, y4], natOfDigits mcs, natOfDigits dcs)
          else none
        | _ => none
      | _ => none
    else none
  | _ => none

/-- Python `datetime.strptime(s, "%Y-%m-%d")` restricted to its date result:
the shape parse above, then the datetime constructor's range validation
(the year bound is automatic for a four-digit year). -/
def strptimeYmd (cs : List Char) : Option (Nat × Nat × Nat) :=
  (strptimeRaw cs).bind (fun t =>
    if 1 ≤ t.1 && t.1 ≤ 9999 && 1 ≤ t.2.1 && t.2.1 ≤ 12 && 1 ≤ t.2.2 &&
        t.2.2 ≤ daysInMonth t.1 t.2.1 then some t else none)

/-! ## datetime.fromisoformat, projected to the calendar date

The handler only uses the `.date().isoformat()` of the parsed value, so we
embed the parser as an Option-valued date extractor: a strict `YYYY-MM-DD`
prefix, followed by nothing or by one separator character and a time
`HH[:MM[:SS[.ffffff]]]` with an optional `Z`/`±HH:MM[:SS]` offset. -/

/-- Two digit characters with their value. -/
def twoDigits (cs : List Char) : Option (Nat × List Char) :=
  match cs with
  | a :: b :: r =>
    if isDigitC a && isDigitC b then some (10 * digitVal a + digitVal b, r) else none
  | _ => none

/-- Fractional seconds: one to six digits. -/
def fracDigitsOk (cs : List Char) : Bool :=
  cs.length ≥ 1 && cs.length ≤ 6 && cs.all isDigitC

/-- UTC offset suffix or nothing. -/
def tzSuffixOk (cs : List Char) : Bool :=
  match cs with
  | [] => true
  | ['Z'] => true
  | ['z'] => true
  | c :: r =>
    (c = '+' || c = '-') &&
    (match twoDigits r with
     | some (h, ':' :: r2) =>
       h ≤ 23 &&
       (match twoDigits r2 with
        | some (mi, r3) =>
          mi ≤ 59 &&
          (match r3 with
           | [] => true
           | ':' :: r4 =>
             (match twoDigits r4 with
              | some (s, r5) => s ≤ 59 && r5.isEmpty
              | none => false)
           | _ => false)
        | none => false)
     | _ => false)

/-- Time-of-day part after the separator. -/
def timePartOk (cs : List Char) : Bool :=
  match twoDigits cs with
  | some (h, r) =>
    h ≤ 23 &&
    (match r with
     | ':' :: r1 =>
       (match twoDigits r1 with
        | some (mi, r2) =>
          mi ≤ 59 &&
          (match r2 with
           | ':' :: r3 =>
             (match twoDigits r3 with
              | some (s, r4) =>
                s ≤ 59 &&
                (match r4 with
                 | '.' :: r5 =>
                   (let (ds, r6) := grabDigits r5
                    fracDigitsOk ds && tzSuffixOk r6)
                 | ',' :: r5 =>
                   (let (ds, r6) := grabDigits r5
                    fracDigitsOk ds && tzSuffixOk r6)
                 | _ => tzSuffixOk r4)
              | none => false)
           | _ => tzSuffixOk r2)
        | none => false)
     | _ => tzSuffixOk r)
  | none => false

/-- What may follow the ten date characters: nothing, or any single separator
character and a valid time part. -/
def isoSuffixOk (cs : List Char) : Bool :=
  match cs with
  | [] => true
  | _sep :: rest => timePartOk rest

/-- The date of `datetime.fromisoformat(s)`, when the parse succeeds. -/
def fromisoDate (s : String) : Option String :=
  let cs := s.data
  if validYmdL (cs.take 10) && isoSuffixOk (cs.drop 10) then
    some (String.mk (cs.take 10))
  else none

/-- to_date_iso from main.py: truncate a timestamp to its calendar date with
graceful fallbacks.  `today` stands for `datetime.now().date().isoformat()`;
Python's `if not ts` is true for both None and the empty string. -/
def to_date_iso (today : String) (ts : Option String) : String :=
  match ts with
  | none => today
  | some s =>
    if s = "" then today
    else
      match fromisoDate s with
      | some d => d
      | none =>
        match strptimeYmd (s.data.take 10) with
        | some ymd => renderYmd ymd
        | none => today

/-! ## The store -/

/-- Row of the apps table. -/
structure AppRow where
  id : Nat
  user_id : String
  app_name : String
  window_title : String
deriving DecidableEq, Repr

/-- Row of the activity_logs table. -/
structure LogRow where
  id : Nat
  app_id : Nat
  activity_date : String
  duration : Int
deriving DecidableEq, Repr

/-- The three tables plus the AUTOINCREMENT counters. -/
structure Store where
  apps : List AppRow
  nextAppId : Nat
  logs : List LogRow
  nextLogId : Nat
  tracked : List String
deriving DecidableEq, Repr

/-- The empty store that startup's CREATE TABLE IF NOT EXISTS yields on a
fresh database (SQLite AUTOINCREMENT starts at 1). -/
def initStore : Store := ⟨[], 1, [], 1, []⟩

/-- Request body of POST /activity/. -/
structure ActivityIn where
  user_id : String
  app_name : String
  window_title : String
  duration : Int
  timestamp : Option String
deriving DecidableEq, Repr

/-- The wall clock the handlers read: the current local date (for
datetime.now().date()) and the current timestamp (for iso_now()). -/
structure Clock where
  today : String
  nowIso : String
deriving DecidableEq, Repr

/-- Python `activity.timestamp or iso_now()`: None and the empty string are
falsy, so both fall back to the current timestamp. -/
def effTs (c : Clock) (t : Option String) : String :=
  match t with
  | some s => if s = "" then c.nowIso else s
  | none => c.nowIso

/-- The activity_date a call with this timestamp field resolves to. -/
def resolvedDate (c : Clock) (t : Option String) : String :=
  to_date_iso c.today (some (effTs c t))

/-- Response of POST /activity/: success carries app_id and activity_date;
err carries the HTTP status of the raised HTTPException. -/
inductive ActResp where
  | ok (app_id : Nat) (activity_date : String)
  | err (code : Nat)
deriving DecidableEq, Repr

/-- The apps-row predicate of the WHERE clause and the UNIQUE constraint. -/
def appKeyB (act : ActivityIn) (r : AppRow) : Bool :=
  r.user_id == act.user_id && r.app_name == act.app_name &&
  r.window_title == act.window_title

/-- add_activity (POST /activity/): get-or-create the apps row for the
natural key, then add the duration into the (app_id, activity_date) log row,
inserting it if absent. -/
def add_activity (c : Clock) (st : Store) (act : ActivityIn) : Store × ActResp :=
  let activity_date := to_date_iso c.today (some (effTs c act.timestamp))
  let st1 : Store :=
    match st.apps.find? (appKeyB act) with
    | some _ => st
    | none =>
      { st with
        apps := st.apps ++ [⟨st.nextAppId, act.user_id, act.app_name, act.window_title⟩],
        nextAppId := st.nextAppId + 1 }
  match st1.apps.find? (appKeyB act) with
  | none => (st1, ActResp.err 500)
  | some appRow =>
    match st1.logs.find? (fun l => l.app_id == appRow.id && l.activity_date == activity_date) with
    | some ex =>
      ({ st1 with
         logs := st1.logs.map (fun l =>
           if l.id == ex.id then { l with duration := ex.duration + act.duration } else l) },
       ActResp.ok appRow.id activity_date)
    | none =>
      ({ st1 with
         logs := st1.logs ++ [⟨st1.nextLogId, appRow.id, activity_date, act.duration⟩],
         nextLogId := st1.nextLogId + 1 },
       ActResp.ok appRow.id activity_date)

/-! ## Tracked-identifier registry -/

/-- Response of the registry endpoints. -/
inductive IdResp where
  | added (identifier : String)
  | removed (identifier : String)
  | err (code : Nat)
deriving DecidableEq, Repr

/-- add_identifier (POST /tracked-identifiers/): plain INSERT; the UNIQUE
constraint raises IntegrityError exactly when the identifier is present,
which the handler maps to HTTP 400. -/
def add_identifier (st : Store) (x : String) : Store × IdResp :=
  if st.tracked.contains x then (st, IdResp.err 400)
  else ({ st with tracked := st.tracked ++ [x] }, IdResp.added x)

/-- remove_identifier (DELETE /tracked-identifiers/x): DELETE all rows with
this identifier, then report 404 when the rowcount was zero. -/
def remove_identifier (st : Store) (x : String) : Store × IdResp :=
  let remaining := st.tracked.filter (fun t => t ≠ x)
  if st.tracked.contains x then ({ st with tracked := remaining }, IdResp.removed x)
  else ({ st with tracked := remaining }, IdResp.err 404)

/-- get_tracked_identifiers (GET /tracked-identifiers/). -/
def get_tracked_identifiers (st : Store) : Store × List String :=
  (st, st.tracked)

/-! ## Read endpoints over apps and logs -/

/-- Stable insertion into a descending-by-key list: an element moves ahead
only past strictly smaller keys, so equal keys keep their scan order. -/
def insDescBy (key : α → Int) (x : α) : List α → List α
  | [] => [x]
  | y :: ys => if key y < key x then x :: y :: ys else y :: insDescBy key x ys

/-- Stable descending sort by an Int key (an ORDER BY ... DESC). -/
def sortDescBy (key : α → Int) (l : List α) : List α :=
  l.foldl (fun acc x => insDescBy key x acc) []

/-- Stable insertion into an ascending list by a Bool order `le`. -/
def insAscBy (le : α → α → Bool) (x : α) : List α → List α
  | [] => [x]
  | y :: ys => if le y x then y :: insAscBy le x ys else x :: y :: ys

/-- Stable ascending sort (an ORDER BY ... ASC). -/
def sortAscBy (le : α → α → Bool) (l : List α) : List α :=
  l.foldl (fun acc x => insAscBy le x acc) []

/-- get_apps (GET /apps/): all apps rows ORDER BY user_id, app_name. -/
def get_apps (st : Store) : Store × List AppRow :=
  (st, sortAscBy
    (fun a b =>
      if a.user_id = b.user_id then strLe a.app_name b.app_name
      else strLe a.user_id b.user_id)
    st.apps)

/-- A row of the activity_logs ⋈ apps join. -/
structure JoinedRow where
  log : LogRow
  app : AppRow
deriving DecidableEq, Repr

/-- The JOIN apps a ON l.app_id = a.id, in log-scan order. -/
def joinLogs (st : Store) : List JoinedRow :=
  st.logs.flatMap (fun l =>
    (st.apps.filter (fun a => a.id == l.app_id)).map (fun a => ⟨l, a⟩))

/-- get_activity_logs (GET /activity-logs/): joined rows under the optional
filters, ORDER BY activity_date DESC, duration DESC. -/
def get_activity_logs (st : Store) (app_id : Option Nat)
    (start_date end_date : Option String) : Store × List JoinedRow :=
  let rows := (joinLogs st).filter (fun r =>
    (match app_id with | some i => r.log.app_id == i | none => true) &&
    (match start_date with | some sd => strLe sd r.log.activity_date | none => true) &&
    (match end_date with | some ed => strLe r.log.activity_date ed | none => true))
  (st, sortAscBy (fun r1 r2 => strLe r2.log.activity_date r1.log.activity_date)
        (sortDescBy (fun r => r.log.duration) rows))

/-! ## Date-window arithmetic and GET /stats/most-used/ -/

/-- Parse a strict `YYYY-MM-DD` string into numbers. -/
def parseYmd (s : String) : Option (Nat × Nat × Nat) :=
  match s.data with
  | [y1, y2, y3, y4, '-', m1, m2, '-', d1, d2] =>
    if validYmdL [y1, y2, y3, y4, '-', m1, m2, '-', d1, d2] then
      some (natOfDigits [y1, y2, y3, y4], natOfDigits [m1, m2], natOfDigits [d1, d2])
    else none
  | _ => none

/-- `(today - timedelta(days = n)).isoformat()`: go through the civil day
ordinal exactly as Python's proleptic-Gregorian date arithmetic does. -/
def isoSubDays (today : String) (n : Nat) : String :=
  match parseYmd today with
  | some (y, m, d) =>
    let z := daysFromCivil (Int.ofNat y) (Int.ofNat m) (Int.ofNat d) - Int.ofNat n
    let c := civilFromDays z
    renderYmd (c.1.toNat, c.2.1.toNat, c.2.2.toNat)
  | none => today

/-- Result of GET /stats/most-used/. -/
structure MostUsedResp where
  app_id : Option Nat
  app_name : Option String
  window_title : Option String
  total_duration : Int
  top_users : List (String × Int)
deriving DecidableEq, Repr

/-- Sum a value into a keyed accumulator list, keeping first-appearance
order (a SQL GROUP BY with SUM). -/
def addToGroup [BEq κ] (acc : List (κ × Int)) (k : κ) (v : Int) : List (κ × Int) :=
  if acc.any (fun p => p.1 == k) then
    acc.map (fun p => if p.1 == k then (p.1, p.2 + v) else p)
  else acc ++ [(k, v)]

/-- GROUP BY with SUM over a list of keyed values. -/
def groupSum [BEq κ] (l : List (κ × Int)) : List (κ × Int) :=
  l.foldl (fun acc p => addToGroup acc p.1 p.2) []

/-- ORDER BY sum DESC LIMIT 1 over grouped sums: the maximum, first group
wins ties. -/
def pickMaxGroup (l : List (κ × Int)) : Option (κ × Int) :=
  l.foldl (fun best p =>
    match best with
    | none => some p
    | some b => if b.2 < p.2 then some p else some b) none

/-- stats_most_used (GET /stats/most-used/): the app with the largest summed
duration over rows with activity_date >= today − (days − 1) (the query has no
upper bound on the date), then its top ten users by duration. -/
def stats_most_used (st : Store) (today : String) (days : Nat) : Store × MostUsedResp :=
  let from_date := isoSubDays today (days - 1)
  let joined := (joinLogs st).filter (fun r => strLe from_date r.log.activity_date)
  let groups := groupSum (joined.map (fun r => (r.log.app_id, r.log.duration)))
  match pickMaxGroup groups with
  | none => (st, ⟨none, none, none, 0, []⟩)
  | some (appId, total) =>
    let arow := joined.find? (fun r => r.log.app_id == appId)
    let joined2 := joined.filter (fun r => r.log.app_id == appId)
    let ugroups := groupSum (joined2.map (fun r => (r.app.user_id, r.log.duration)))
    (st, ⟨some appId, arow.map (fun r => r.app.app_name),
          arow.map (fun r => r.app.window_title), total,
          (sortDescBy (fun p => p.2) ugroups).take 10⟩)

/-! ## Chatbot: parse_days_from_text -/

/-- Try the regex `last\s+(\d+)\s+days` at one position.  The character
classes on either side of each greedy `\s+` are disjoint from whitespace, so
the maximal-run reading is exactly the backtracking semantics here. -/
def searchLastDaysAt (cs : List Char) : Option Nat :=
  match dropLit "last".data cs with
  | none => none
  | some r1 =>
    if (r1.takeWhile isWsC).isEmpty then none
    else
      let r2 := r1.dropWhile isWsC
      let ds := r2.takeWhile isDigitC
      if ds.isEmpty then none
      else
        let r3 := r2.dropWhile isDigitC
        if (r3.takeWhile isWsC).isEmpty then none
        else
          match dropLit "days".data (r3.dropWhile isWsC) with
          | some _ => some (natOfDigits ds)
          | none => none

/-- Leftmost match of `last\s+(\d+)\s+days` (re.search). -/
def searchLastDays : List Char → Option Nat
  | [] => none
  | c :: rest => (searchLastDaysAt (c :: rest)) <|> searchLastDays rest

/-- parse_days_from_text from main.py.  Python's `int` cannot fail on a
`\d+` group, so the try/except there is dead; `max(1, n)` keeps one day as
the floor. -/
def parse_days_from_text (text : String) (default : Nat) : Nat :=
  match searchLastDays text.data with
  | some n => max 1 n
  | none =>
    if containsSub "today".data text.data then 1
    else if containsSub "yesterday".data text.data then 1
    else default

/-! ## Chatbot: the most-used intent guard -/

/-- The top_keywords list of chatbot_query. -/
def top_keywords : List String :=
  ["top apps", "most used", "most used apps", "most popular", "top app"]

/-- `any(kw in qlow for kw in top_keywords)`. -/
def anyTopKeyword (cs : List Char) : Bool :=
  top_keywords.any (fun k => containsSub k.data cs)

/-- The regex `\btop\s+\d+\b` at one position, given the previous character
for the word boundary. -/
def topNumAt (prev : Option Char) (cs : List Char) : Bool :=
  (match prev with | none => true | some p => !isWordC p) &&
  (match dropLit "top".data cs with
   | none => false
   | some r1 =>
     if (r1.takeWhile isWsC).isEmpty then false
     else
       let r2 := r1.dropWhile isWsC
       if (r2.takeWhile isDigitC).isEmpty then false
       else
         match r2.dropWhile isDigitC with
         | [] => true
         | c :: _ => !isWordC c)

/-- Leftmost search for `\btop\s+\d+\b`. -/
def searchTopNum : Option Char → List Char → Bool
  | prev, [] => topNumAt prev []
  | prev, c :: rest => topNumAt prev (c :: rest) || searchTopNum (some c) rest

/-! ## Chatbot: the how-many-on-app regex

`how (many|much)\s+(minutes|hours|seconds)\s+(?:did|have|have i|have we|was)`
`\s*(?:i|we)?\s*(?:use\s+)?(?:on\s+)?([a-zA-Z0-9.\-_\s]+?)`
`(?:\s+on\s+(\d{4}-\d{2}-\d{2}))?$`

embedded as a continuation-passing matcher whose alternative order mirrors
the regex engine: greedy pieces try the longer consumption first, optional
groups try the present branch first, `+?` tries the shortest capture first. -/

/-- Greedy `\s*`: consume more whitespace first, backtrack to less. -/
def wsStarTry (cs : List Char) (k : List Char → Option α) : Option α :=
  match cs with
  | [] => k []
  | c :: rest => if isWsC c then (wsStarTry rest k) <|> k (c :: rest) else k (c :: rest)

/-- Greedy `\s+`: at least one whitespace character. -/
def wsPlusTry (cs : List Char) (k : List Char → Option α) : Option α :=
  match cs with
  | [] => none
  | c :: rest => if isWsC c then wsStarTry rest k else none

/-- A literal, then the continuation. -/
def litTry (lit : List Char) (cs : List Char) (k : List Char → Option α) : Option α :=
  match dropLit lit cs with
  | some r => k r
  | none => none

/-- An alternation of literals, first alternative first. -/
def altTry (lits : List (List Char)) (cs : List Char) (k : List Char → Option α) : Option α :=
  match lits with
  | [] => none
  | l :: ls => (litTry l cs k) <|> altTry ls cs k

/-- An optional alternation of literals: present first, then skipped. -/
def optAltTry (lits : List (List Char)) (cs : List Char) (k : List Char → Option α) : Option α :=
  (altTry lits cs k) <|> k cs

/-- `(?:word\s+)?`: present first, then skipped. -/
def optWordWsTry (w : List Char) (cs : List Char) (k : List Char → Option α) : Option α :=
  (litTry w cs (fun r => wsPlusTry r k)) <|> k cs

/-- `\d{4}-\d{2}-\d{2}` with the matched characters and the remainder. -/
def matchDateG (cs : List Char) : Option (List Char × List Char) :=
  match cs with
  | a :: b :: c :: d :: '-' :: e :: f :: '-' :: g :: h :: r =>
    if [a, b, c, d, e, f, g, h].all isDigitC then
      some ([a, b, c, d, '-', e, f, '-', g, h], r)
    else none
  | _ => none

/-- `(?:\s+on\s+(date))?$`: try the dated suffix first, otherwise require
the end of the string; returns the optional capture. -/
def dateSuffixEnd (cs : List Char) : Option (Option (List Char)) :=
  (wsPlusTry cs (fun r1 =>
    litTry "on".data r1 (fun r2 =>
      wsPlusTry r2 (fun r3 =>
        match matchDateG r3 with
        | some (d, []) => some (some d)
        | _ => none)))) <|>
  (if cs.isEmpty then some none else none)

/-- The lazy `([a-zA-Z0-9.\-_\s]+?)` followed by the dated-suffix-or-end:
grow the capture one character at a time, trying the suffix after each. -/
def appFragLoop (acc : List Char) : List Char → Option (List Char × Option (List Char))
  | [] => none
  | c :: rest =>
    if isFragmentC c then
      match dateSuffixEnd rest with
      | some g4 => some (acc ++ [c], g4)
      | none => appFragLoop (acc ++ [c]) rest
    else none

/-- One unit alternative of the how-many regex with everything after it. -/
def tryUnit (u : String) (cs : List Char) : Option (String × List Char × Option (List Char)) :=
  litTry u.data cs (fun r4 =>
    wsPlusTry r4 (fun r5 =>
      altTry ["did".data, "have".data, "have i".data, "have we".data, "was".data] r5 (fun r6 =>
        wsStarTry r6 (fun r7 =>
          optAltTry ["i".data, "we".data] r7 (fun r8 =>
            wsStarTry r8 (fun r9 =>
              optWordWsTry "use".data r9 (fun r10 =>
                optWordWsTry "on".data r10 (fun r11 =>
                  (appFragLoop [] r11).map (fun p => (u, p.1, p.2))))))))))

/-- The whole how-many regex at one position: unit, raw app fragment, and
the optional date capture. -/
def matchHowManyAt (cs : List Char) : Option (String × List Char × Option (List Char)) :=
  litTry "how ".data cs (fun r1 =>
    altTry ["many".data, "much".data] r1 (fun r2 =>
      wsPlusTry r2 (fun r3 =>
        (tryUnit "minutes" r3) <|> (tryUnit "hours" r3) <|> (tryUnit "seconds" r3))))

/-- Leftmost re.search of the how-many regex. -/
def searchHowMany : List Char → Option (String × List Char × Option (List Char))
  | [] => matchHowManyAt []
  | c :: rest => (matchHowManyAt (c :: rest)) <|> searchHowMany rest

/-! ## Chatbot: the top-users regex

`top users for\s+([a-zA-Z0-9.\-_\s]+)(?:\s+last\s+(\d+)\s+days)?` -/

/-- `(?:\s+last\s+(\d+)\s+days)` after the greedy group: its leading `\s+`
can never match right after a maximal fragment run (whitespace is in the
fragment class), so the capture stays absent, as in the source. -/
def lastDaysSuffix (cs : List Char) : Option Nat :=
  wsPlusTry cs (fun r1 =>
    litTry "last".data r1 (fun r2 =>
      wsPlusTry r2 (fun r3 =>
        let ds := r3.takeWhile isDigitC
        if ds.isEmpty then none
        else
          wsPlusTry (r3.dropWhile isDigitC) (fun r5 =>
            litTry "days".data r5 (fun _ => some (natOfDigits ds))))))

/-- The top-users regex at one position: the raw group-1 capture and the
optional day count. -/
def matchTopUsersAt (cs : List Char) : Option (List Char × Option Nat) :=
  litTry "top users for".data cs (fun r1 =>
    wsPlusTry r1 (fun r2 =>
      let g1 := r2.takeWhile isFragmentC
      if g1.isEmpty then none
      else some (g1, lastDaysSuffix (r2.dropWhile isFragmentC))))

/-- Leftmost re.search of the top-users regex. -/
def searchTopUsers : List Char → Option (List Char × Option Nat)
  | [] => matchTopUsersAt []
  | c :: rest => (matchTopUsersAt (c :: rest)) <|> searchTopUsers rest

/-! ## Chatbot: free-text fallback and intent dispatch -/

/-- Dropping a while-prefix never lengthens a list. -/
theorem dropWhileLenLe (p : α → Bool) (l : List α) : (l.dropWhile p).length ≤ l.length := by
  induction l with
  | nil => simp [List.dropWhile]
  | cons c cs ih =>
    by_cases h : p c
    · simpa [List.dropWhile, h] using Nat.le_succ_of_le ih
    · simp [List.dropWhile, h]

/-- First token of `re.findall(r"[a-zA-Z0-9.\-_]{2,}", qlow)`: the first
maximal run of term characters of length at least two. -/
def firstTerm : List Char → Option (List Char)
  | [] => none
  | c :: rest =>
    if isTermC c then
      let run := c :: rest.takeWhile isTermC
      -- a run shorter than two characters is just [c], so the scan resumes
      -- at rest, which then starts with a non-term character
      if 2 ≤ run.length then some run
      else firstTerm rest
    else firstTerm rest

/-- The queries the chatbot issues, kept as structured data; the Python
f-string rendering of the final answer text is presentation only. -/
inductive ChatAnswer where
  | noActivity (days : Nat)
  | topApps (days : Nat) (rows : List (String × Int))
  | specifyApp
  | durationAnswer (unit : String) (appFrag : String) (dateStr : Option String)
      (totalSeconds : Int)
  | specifyUsersApp
  | noUsers (appFrag : String) (days : Nat)
  | topUsers (appFrag : String) (days : Nat) (rows : List (String × Int))
  | noMatches (term : String)
  | recent (rows : List (String × String × Int × String))
  | helpText
deriving DecidableEq, Repr

/-- Outcome of POST /api/chatbot/query. -/
inductive ChatResult where
  | err (code : Nat)
  | answer (a : ChatAnswer)
deriving DecidableEq, Repr

/-- The rule the cascade of chatbot_query selects; rules are tried in the
source order and the first match wins. -/
inductive Intent where
  | emptyQuery
  | mostUsed (days : Nat)
  | durationForApp (unit : String) (appFrag : String) (dateStr : Option String)
  | topUsersForApp (appFrag : String) (days : Nat)
  | freeText (term : String)
  | help
deriving DecidableEq, Repr

/-- The intent cascade of chatbot_query, computed from the query text alone
(before any database access). -/
def classify (q : String) : Intent :=
  let qt := stripL q.data
  if qt.isEmpty then Intent.emptyQuery
  else
    let ql := lowerL qt
    if anyTopKeyword ql || searchTopNum none ql then
      Intent.mostUsed (parse_days_from_text (String.mk ql) 7)
    else
      match searchHowMany ql with
      | some (unit, g3, g4) =>
        Intent.durationForApp unit (String.mk (stripL g3)) (g4.map String.mk)
      | none =>
        match searchTopUsers ql with
        | some (g1, g2) => Intent.topUsersForApp (String.mk (stripL g1)) (g2.getD 7)
        | none =>
          match firstTerm ql with
          | some t => Intent.freeText (String.mk t)
          | none => Intent.help

/-- The most-used SQL of the chatbot: GROUP BY a.app_name over the window,
ORDER BY total DESC LIMIT 10. -/
def topAppsRows (st : Store) (today : String) (days : Nat) : List (String × Int) :=
  let from_date := isoSubDays today (days - 1)
  let joined := (joinLogs st).filter (fun r => strLe from_date r.log.activity_date)
  (sortDescBy (fun p => p.2)
    (groupSum (joined.map (fun r => (r.app.app_name, r.log.duration))))).take 10

/-- chatbot_query (POST /api/chatbot/query): classify the text, run the
corresponding read-only query, and leave the store as it was. -/
def chatbot_query (st : Store) (today : String) (q : String) : Store × ChatResult :=
  match classify q with
  | Intent.emptyQuery => (st, ChatResult.err 400)
  | Intent.mostUsed days =>
    let rows := topAppsRows st today days
    if rows.isEmpty then (st, ChatResult.answer (ChatAnswer.noActivity days))
    else (st, ChatResult.answer (ChatAnswer.topApps days rows))
  | Intent.durationForApp unit frag dateStr =>
    if frag = "" then (st, ChatResult.answer ChatAnswer.specifyApp)
    else
      let rows := (joinLogs st).filter (fun r =>
        likeContains frag r.app.app_name &&
        (match dateStr with | some d => r.log.activity_date == d | none => true))
      (st, ChatResult.answer (ChatAnswer.durationAnswer unit frag dateStr
            (rows.map (fun r => r.log.duration)).sum))
  | Intent.topUsersForApp frag days =>
    if frag = "" then (st, ChatResult.answer ChatAnswer.specifyUsersApp)
    else
      let from_date := isoSubDays today (days - 1)
      let rows := (joinLogs st).filter (fun r =>
        likeContains frag r.app.app_name && strLe from_date r.log.activity_date)
      let top := (sortDescBy (fun p => p.2)
        (groupSum (rows.map (fun r => (r.app.user_id, r.log.duration))))).take 10
      if top.isEmpty then (st, ChatResult.answer (ChatAnswer.noUsers frag days))
      else (st, ChatResult.answer (ChatAnswer.topUsers frag days top))
  | Intent.freeText term =>
    let rows := (joinLogs st).filter (fun r =>
      likeContains term r.app.app_name || likeContains term r.app.window_title)
    let sorted := (sortAscBy (fun a b => strLe b.log.activity_date a.log.activity_date) rows).take 8
    if sorted.isEmpty then (st, ChatResult.answer (ChatAnswer.noMatches term))
    else
      (st, ChatResult.answer (ChatAnswer.recent (sorted.map (fun r =>
        (r.app.app_name, r.app.window_title, r.log.duration, r.log.activity_date)))))
  | Intent.help => (st, ChatResult.answer ChatAnswer.helpText)

/-! ## Migration (modelled from the spec) -/

/-- Modelled from the spec: a row of the legacy flat-session table of spec
section 4.2.  The migration logic itself is not present under src/ — the
startup function in main.py only issues CREATE TABLE IF NOT EXISTS — so the
legacy schema and the migration transform are taken from the spec's words. -/
structure LegacyRow where
  user_id : String
  app_name : String
  window_title : String
  duration : Int
  timestamp : Option String
deriving DecidableEq, Repr

/-- Modelled from the spec: the store together with the transient legacy
table and its archived copy, whose presence is the "already migrated"
marker. -/
structure MigStore where
  store : Store
  legacy : Option (List LegacyRow)
  archived : Option (List LegacyRow)
deriving DecidableEq, Repr

/-- Modelled from the spec: the grouping key (user_id, app_name,
window_title, truncated date) of a legacy row, truncating the timestamp with
the same date fallback policy as recordUsage. -/
def legacyKey (c : Clock) (r : LegacyRow) : String × String × String × String :=
  (r.user_id, r.app_name, r.window_title, to_date_iso c.today r.timestamp)

/-- Modelled from the spec: group-and-sum the legacy rows by their key. -/
def legacyGroups (c : Clock) (rows : List LegacyRow) :
    List ((String × String × String × String) × Int) :=
  groupSum (rows.map (fun r => (legacyKey c r, r.duration)))

/-- Modelled from the spec: the startup migration of spec section 4.2.  When
the legacy table is present and the archived marker is absent, write each
group through the recordUsage upsert (the truncated date itself serving as
the representative timestamp) and archive the legacy table; in every other
case do nothing. -/
def migrate (c : Clock) (ms : MigStore) : MigStore :=
  match ms.legacy, ms.archived with
  | some rows, none =>
    let st' := (legacyGroups c rows).foldl
      (fun s g => (add_activity c s ⟨g.1.1, g.1.2.1, g.1.2.2.1, g.2, some g.1.2.2.2⟩).1)
      ms.store
    ⟨st', none, some rows⟩
  | _, _ => ms

/-! ## The operations and reachable states -/

/-- One request against the server, with the clock it observes. -/
inductive Op where
  | activity (c : Clock) (a : ActivityIn)
  | addIdent (x : String)
  | removeIdent (x : String)
  | listApps
  | listLogs (app_id : Option Nat) (start_date end_date : Option String)
  | listIdents
  | mostUsed (today : String) (days : Nat)
  | chat (today : String) (q : String)

/-- The store after one request. -/
def step (st : Store) : Op → Store
  | Op.activity c a => (add_activity c st a).1
  | Op.addIdent x => (add_identifier st x).1
  | Op.removeIdent x => (remove_identifier st x).1
  | Op.listApps => (get_apps st).1
  | Op.listLogs i sd ed => (get_activity_logs st i sd ed).1
  | Op.listIdents => (get_tracked_identifiers st).1
  | Op.mostUsed t d => (stats_most_used st t d).1
  | Op.chat t q => (chatbot_query st t q).1

/-- States reachable from the fresh schema by any request sequence. -/
inductive Reachable : Store → Prop
  | init : Reachable initStore
  | next (op : Op) {st : Store} : Reachable st → Reachable (step st op)

/-- The data invariants the SQLite schema enforces and the handlers rely on:
the natural-key UNIQUE constraints, AUTOINCREMENT freshness, and the foreign
key from logs to apps. -/
structure StoreInv (st : Store) : Prop where
  appsTriples : st.apps.Pairwise (fun r1 r2 =>
    ¬(r1.user_id = r2.user_id ∧ r1.app_name = r2.app_name ∧
      r1.window_title = r2.window_title))
  appsIdLt : ∀ r ∈ st.apps, r.id < st.nextAppId
  logsKeys : st.logs.Pairwise (fun l1 l2 =>
    ¬(l1.app_id = l2.app_id ∧ l1.activity_date = l2.activity_date))
  logsRef : ∀ l ∈ st.logs, ∃ r ∈ st.apps, r.id = l.app_id

/-- The id of the apps row with this natural key, if any. -/
def appIdFor (st : Store) (u a w : String) : Option Nat :=
  (st.apps.find? (fun r => r.user_id == u && r.app_name == a && r.window_title == w)).map
    AppRow.id

/-- The activity_logs rows for a natural key and date: the rows of the app
carrying that key, on that date. -/
def keyRows (st : Store) (u a w d : String) : List LogRow :=
  match appIdFor st u a w with
  | none => []
  | some i => st.logs.filter (fun l => l.app_id == i && l.activity_date == d)

/-- A sequence of POST /activity/ calls sharing one natural key, folded over
the store. -/
def runCalls (c : Clock) (u a w : String) (st : Store)
    (calls : List (Int × Option String)) : Store :=
  calls.foldl (fun s p => (add_activity c s ⟨u, a, w, p.1, p.2⟩).1) st

/-! ## Lemmas about digits and date strings -/

/-- A character of digit value below ten is one of the ten digits. -/
theorem digit_cases (c : Char) (h : digitVal c < 10) :
    c = '0' ∨ c = '1' ∨ c = '2' ∨ c = '3' ∨ c = '4' ∨ c = '5' ∨ c = '6' ∨
    c = '7' ∨ c = '8' ∨ c = '9' := by
  unfold digitVal at h
  split_ifs at h with h0 h1 h2 h3 h4 h5 h6 h7 h8 h9 <;> simp_all

/-- digitChar10 is a left inverse of digitVal on digits. -/
theorem digitChar10_digitVal (c : Char) (h : digitVal c < 10) :
    digitChar10 (digitVal c) = c := by
  rcases digit_cases c h with rfl | rfl | rfl | rfl | rfl | rfl | rfl | rfl | rfl | rfl <;>
    decide

/-- Unfolding the Bool digit test. -/
theorem isDigitC_iff {c : Char} : isDigitC c = true ↔ digitVal c < 10 := by
  simp [isDigitC]

/-- digitVal is a left inverse of digitChar10 below ten. -/
theorem digitVal_digitChar10 (n : Nat) (h : n ≤ 9) : digitVal (digitChar10 n) = n := by
  interval_cases n <;> decide

/-- digitChar10 always renders a digit. -/
theorem isDigitC_digitChar10 (n : Nat) : isDigitC (digitChar10 n) = true := by
  unfold digitChar10
  split_ifs <;> decide

/-- Value of a two-character digit list. -/
theorem natOfDigits_two (a b : Char) :
    natOfDigits [a, b] = 10 * digitVal a + digitVal b := by
  simp [natOfDigits, List.foldl]

/-- Value of a four-character digit list. -/
theorem natOfDigits_four (a b c d : Char) :
    natOfDigits [a, b, c, d] =
      1000 * digitVal a + 100 * digitVal b + 10 * digitVal c + digitVal d := by
  simp [natOfDigits, List.foldl]; ring

/-- pad2 inverts natOfDigits on two digits. -/
theorem pad2_natOfDigits (a b : Char) (ha : isDigitC a = true) (hb : isDigitC b = true) :
    pad2 (natOfDigits [a, b]) = [a, b] := by
  have ha' := isDigitC_iff.mp ha
  have hb' := isDigitC_iff.mp hb
  rw [natOfDigits_two]
  unfold pad2
  have h1 : (10 * digitVal a + digitVal b) / 10 % 10 = digitVal a := by omega
  have h2 : (10 * digitVal a + digitVal b) % 10 = digitVal b := by omega
  rw [h1, h2, digitChar10_digitVal a ha', digitChar10_digitVal b hb']

/-- pad4 inverts natOfDigits on four digits. -/
theorem pad4_natOfDigits (a b c d : Char) (ha : isDigitC a = true)
    (hb : isDigitC b = true) (hc : isDigitC c = true) (hd : isDigitC d = true) :
    pad4 (natOfDigits [a, b, c, d]) = [a, b, c, d] := by
  have ha' := isDigitC_iff.mp ha
  have hb' := isDigitC_iff.mp hb
  have hc' := isDigitC_iff.mp hc
  have hd' := isDigitC_iff.mp hd
  rw [natOfDigits_four]
  unfold pad4
  have h1 : (1000 * digitVal a + 100 * digitVal b + 10 * digitVal c + digitVal d)
      / 1000 % 10 = digitVal a := by omega
  have h2 : (1000 * digitVal a + 100 * digitVal b + 10 * digitVal c + digitVal d)
      / 100 % 10 = digitVal b := by omega
  have h3 : (1000 * digitVal a + 100 * digitVal b + 10 * digitVal c + digitVal d)
      / 10 % 10 = digitVal c := by omega
  have h4 : (1000 * digitVal a + 100 * digitVal b + 10 * digitVal c + digitVal d)
      % 10 = digitVal d := by omega
  rw [h1, h2, h3, h4, digitChar10_digitVal a ha', digitChar10_digitVal b hb',
      digitChar10_digitVal c hc', digitChar10_digitVal d hd']

/-- Shape and facts of a strictly valid date string. -/
theorem validYmdL_elim {cs : List Char} (h : validYmdL cs = true) :
    ∃ y1 y2 y3 y4 m1 m2 d1 d2,
      cs = [y1, y2, y3, y4, '-', m1, m2, '-', d1, d2] ∧
      isDigitC y1 = true ∧ isDigitC y2 = true ∧ isDigitC y3 = true ∧
      isDigitC y4 = true ∧ isDigitC m1 = true ∧ isDigitC m2 = true ∧
      isDigitC d1 = true ∧ isDigitC d2 = true ∧
      1 ≤ natOfDigits [y1, y2, y3, y4] ∧
      1 ≤ natOfDigits [m1, m2] ∧ natOfDigits [m1, m2] ≤ 12 ∧
      1 ≤ natOfDigits [d1, d2] ∧
      natOfDigits [d1, d2] ≤
        daysInMonth (natOfDigits [y1, y2, y3, y4]) (natOfDigits [m1, m2]) := by
  unfold validYmdL at h
  split at h
  next y1 y2 y3 y4 m1 m2 d1 d2 =>
    simp only [Bool.and_eq_true, decide_eq_true_eq] at h
    refine ⟨y1, y2, y3, y4, m1, m2, d1, d2, rfl,
      ?_, ?_, ?_, ?_, ?_, ?_, ?_, ?_, ?_, ?_, ?_, ?_, ?_⟩ <;> tauto
  next => simp at h

/-- On a strictly valid date string, strptime succeeds and its rendered
result is the input itself. -/
theorem strptimeYmd_of_valid {cs : List Char} (h : validYmdL cs = true) :
    ∃ t, strptimeYmd cs = some t ∧ renderYmd t = String.mk cs ∧ cs.length = 10 := by
  obtain ⟨y1, y2, y3, y4, m1, m2, d1, d2, rfl, hy1, hy2, hy3, hy4, hm1, hm2,
    hd1, hd2, hgy, hgm1, hgm2, hgd1, hgd2⟩ := validYmdL_elim h
  have hdash : isDigitC '-' = false := by decide
  refine ⟨(natOfDigits [y1, y2, y3, y4], natOfDigits [m1, m2], natOfDigits [d1, d2]),
    ?_, ?_, rfl⟩
  · have hy9999 : natOfDigits [y1, y2, y3, y4] ≤ 9999 := by
      have h1 := isDigitC_iff.mp hy1
      have h2 := isDigitC_iff.mp hy2
      have h3 := isDigitC_iff.mp hy3
      have h4 := isDigitC_iff.mp hy4
      rw [natOfDigits_four]
      omega
    simp [strptimeYmd, strptimeRaw, grabDigits, hy1, hy2, hy3, hy4, hm1, hm2,
      hd1, hd2, hdash, hgy, hgm1, hgm2, hgd1, hgd2, hy9999]
  · unfold renderYmd
    rw [show (natOfDigits [y1, y2, y3, y4], natOfDigits [m1, m2],
          natOfDigits [d1, d2]).1 = natOfDigits [y1, y2, y3, y4] from rfl]
    rw [pad4_natOfDigits y1 y2 y3 y4 hy1 hy2 hy3 hy4,
        pad2_natOfDigits m1 m2 hm1 hm2, pad2_natOfDigits d1 d2 hd1 hd2]
    exact String.ext (by simp)

/-- Any successful strptime parse satisfies the datetime range checks. -/
theorem strptimeYmd_bounds {cs : List Char} {y mo da : Nat}
    (h : strptimeYmd cs = some (y, mo, da)) :
    1 ≤ y ∧ y ≤ 9999 ∧ 1 ≤ mo ∧ mo ≤ 12 ∧ 1 ≤ da ∧ da ≤ daysInMonth y mo := by
  unfold strptimeYmd at h
  rw [Option.bind_eq_some] at h
  obtain ⟨t, _, hg⟩ := h
  split at hg
  next hc =>
    obtain rfl : t = (y, mo, da) := by simpa using hg
    simpa [Bool.and_eq_true, decide_eq_true_eq, and_assoc] using hc
  next => simp at hg



/-- No month has more than 31 days. -/
theorem daysInMonth_le_31 (y m : Nat) : daysInMonth y m ≤ 31 := by
  unfold daysInMonth
  split_ifs <;> omega

/-- The rendering of any in-range parsed date is itself strictly valid. -/
theorem renderYmd_valid {y mo da : Nat} (hy1 : 1 ≤ y) (hy2 : y ≤ 9999)
    (hmo1 : 1 ≤ mo) (hmo2 : mo ≤ 12) (hda1 : 1 ≤ da)
    (hda2 : da ≤ daysInMonth y mo) :
    validYmd (renderYmd (y, mo, da)) = true := by
  have hda31 : da ≤ 31 := le_trans hda2 (daysInMonth_le_31 y mo)
  have k1 : y / 1000 % 10 ≤ 9 := by omega
  have k2 : y / 100 % 10 ≤ 9 := by omega
  have k3 : y / 10 % 10 ≤ 9 := by omega
  have k4 : y % 10 ≤ 9 := by omega
  have k5 : mo / 10 % 10 ≤ 9 := by omega
  have k6 : mo % 10 ≤ 9 := by omega
  have k7 : da / 10 % 10 ≤ 9 := by omega
  have k8 : da % 10 ≤ 9 := by omega
  have hy : natOfDigits [digitChar10 (y / 1000 % 10), digitChar10 (y / 100 % 10),
      digitChar10 (y / 10 % 10), digitChar10 (y % 10)] = y := by
    rw [natOfDigits_four, digitVal_digitChar10 _ k1, digitVal_digitChar10 _ k2,
        digitVal_digitChar10 _ k3, digitVal_digitChar10 _ k4]
    omega
  have hmo : natOfDigits [digitChar10 (mo / 10 % 10), digitChar10 (mo % 10)] = mo := by
    rw [natOfDigits_two, digitVal_digitChar10 _ k5, digitVal_digitChar10 _ k6]
    omega
  have hda : natOfDigits [digitChar10 (da / 10 % 10), digitChar10 (da % 10)] = da := by
    rw [natOfDigits_two, digitVal_digitChar10 _ k7, digitVal_digitChar10 _ k8]
    omega
  show validYmdL (pad4 y ++ '-' :: pad2 mo ++ '-' :: pad2 da) = true
  unfold pad4 pad2
  simp only [List.cons_append, List.nil_append]
  simp [validYmdL, isDigitC_digitChar10, hy, hmo, hda, hy1, hmo1, hmo2, hda1, hda2]

/-- A strictly valid date string has ten characters. -/
theorem validYmdL_length {cs : List Char} (h : validYmdL cs = true) :
    cs.length = 10 := by
  obtain ⟨y1, y2, y3, y4, m1, m2, d1, d2, rfl, -⟩ := validYmdL_elim h
  rfl

/-- A successful fromisoformat date is the first ten characters of the
input, and is strictly valid. -/
theorem fromisoDate_some {s : String} {d : String} (h : fromisoDate s = some d) :
    d = String.mk (s.data.take 10) ∧ validYmd d = true := by
  unfold fromisoDate at h
  dsimp only at h
  split at h
  next hc =>
    simp only [Bool.and_eq_true] at hc
    obtain rfl : String.mk (s.data.take 10) = d := by simpa using h
    exact ⟨rfl, hc.1⟩
  next => simp at h

/-- Claim C10: to_date_iso is total: on every input (None or any string) it
returns a strictly valid YYYY-MM-DD string and never fails, every parse
failure falling back first to parsing the first ten characters as
YYYY-MM-DD and finally to the current local date. -/
theorem c10_to_date_iso_total (today : String) (ts : Option String)
    (h : validYmd today = true) :
    validYmd (to_date_iso today ts) = true ∧
    to_date_iso today none = today ∧
    to_date_iso today (some "") = today ∧
    (∀ s d, ts = some s → s ≠ "" → fromisoDate s = some d →
      to_date_iso today ts = d) ∧
    (∀ s t, ts = some s → s ≠ "" → fromisoDate s = none →
      strptimeYmd (s.data.take 10) = some t → to_date_iso today ts = renderYmd t) ∧
    (∀ s, ts = some s → s ≠ "" → fromisoDate s = none →
      strptimeYmd (s.data.take 10) = none → to_date_iso today ts = today) := by
  refine ⟨?_, rfl, rfl, ?_, ?_, ?_⟩
  · cases ts with
    | none => exact h
    | some s =>
      simp only [to_date_iso]
      by_cases hs : s = ""
      · simp [hs, h]
      · rw [if_neg hs]
        cases hf : fromisoDate s with
        | some d => exact (fromisoDate_some hf).2
        | none =>
          cases hp : strptimeYmd (s.data.take 10) with
          | some t =>
            obtain ⟨y, mo, da⟩ := t
            obtain ⟨b1, b2, b3, b4, b5, b6⟩ := strptimeYmd_bounds hp
            exact renderYmd_valid b1 b2 b3 b4 b5 b6
          | none => exact h
  · rintro s d rfl hs hf
    simp only [to_date_iso]
    rw [if_neg hs, hf]
  · rintro s t rfl hs hf hp
    simp only [to_date_iso]
    rw [if_neg hs, hf, hp]
  · rintro s rfl hs hf hp
    simp only [to_date_iso]
    rw [if_neg hs, hf, hp]

/-- Witness for C10 at a concrete valid today and an unparseable timestamp. -/
theorem c10_to_date_iso_total_witness :
    validYmd (to_date_iso "2025-10-12" (some "garbage")) = true ∧
    to_date_iso "2025-10-12" (some "garbage") = "2025-10-12" := by
  have h := c10_to_date_iso_total "2025-10-12" (some "garbage") (by decide)
  exact ⟨h.1, h.2.2.2.2.2 "garbage" rfl (by decide) (by decide) (by decide)⟩

/-- Any timestamp that begins with a strictly valid date truncates to that
date, whatever follows (a parsable time suffix goes through fromisoformat,
anything else through the first-ten-characters strptime fallback). -/
theorem to_date_iso_append (today d : String) (t : List Char)
    (hd : validYmd d = true) :
    to_date_iso today (some (String.mk (d.data ++ t))) = d := by
  have hlen : d.data.length = 10 := validYmdL_length hd
  have hne : String.mk (d.data ++ t) ≠ "" := by
    intro he
    have h2 : d.data ++ t = [] := by simpa using congrArg String.data he
    rcases List.append_eq_nil.mp h2 with ⟨h3, -⟩
    rw [h3] at hlen
    simp at hlen
  have htake : (d.data ++ t).take 10 = d.data := by
    rw [← hlen, List.take_left]
  simp only [to_date_iso]
  rw [if_neg hne]
  cases hf : fromisoDate (String.mk (d.data ++ t)) with
  | some d2 =>
    show d2 = d
    obtain ⟨hd2, -⟩ := fromisoDate_some hf
    rw [hd2]
    show String.mk ((d.data ++ t).take 10) = d
    rw [htake]
  | none =>
    obtain ⟨t0, hp, hr, -⟩ := strptimeYmd_of_valid (show validYmdL d.data from hd)
    show (match strptimeYmd ((d.data ++ t).take 10) with
      | some ymd => renderYmd ymd | none => today) = d
    rw [htake, hp]
    show renderYmd t0 = d
    rw [hr]

/-! ## List helpers for the upsert proofs -/

/-- find? returns the head of the filtered list. -/
theorem find?_eq_head?_filter (p : α → Bool) (l : List α) :
    l.find? p = (l.filter p).head? := by
  induction l with
  | nil => rfl
  | cons x xs ih =>
    by_cases h : p x
    · rw [List.find?_cons_of_pos _ h, List.filter_cons_of_pos h]
      rfl
    · rw [List.find?_cons_of_neg _ h, List.filter_cons_of_neg h, ih]

/-- Filtering commutes with a map that does not change the predicate. -/
theorem filter_map_pred (u : α → α) (p : α → Bool) (l : List α)
    (h : ∀ x, p (u x) = p x) :
    (l.map u).filter p = (l.filter p).map u := by
  induction l with
  | nil => rfl
  | cons x xs ih => by_cases hx : p x <;> simp [List.filter_cons, h, hx, ih]

/-- Under a pairwise key-uniqueness invariant, the rows matching one key
form at most a singleton: any member is the whole filtered list. -/
theorem filter_eq_singleton_of_pairwise {l : List LogRow} {i : Nat} {d : String}
    (hp : l.Pairwise (fun l1 l2 =>
      ¬(l1.app_id = l2.app_id ∧ l1.activity_date = l2.activity_date)))
    {x : LogRow}
    (hx : x ∈ l.filter (fun l2 => l2.app_id == i && l2.activity_date == d)) :
    l.filter (fun l2 => l2.app_id == i && l2.activity_date == d) = [x] := by
  have hsub := List.Pairwise.sublist
    (List.filter_sublist (p := fun l2 => l2.app_id == i && l2.activity_date == d) l) hp
  set f := l.filter (fun l2 => l2.app_id == i && l2.activity_date == d) with hf
  have hkey : ∀ y ∈ f, y.app_id = i ∧ y.activity_date = d := by
    intro y hy
    have := List.of_mem_filter hy
    simpa [Bool.and_eq_true] using this
  match hfm : f with
  | [] => simp at hx
  | [a] =>
    simp only [List.mem_singleton] at hx
    rw [hx]
  | a :: b :: rest =>
    have hab := (List.pairwise_cons.mp hsub).1 b (by simp)
    have ha := hkey a (by simp)
    have hb := hkey b (by simp)
    exact absurd ⟨ha.1.trans hb.1.symm, ha.2.trans hb.2.symm⟩ hab

/-- The natural-key predicate holds for the row that the insert builds. -/
theorem appKeyB_self (act : ActivityIn) (i : Nat) :
    appKeyB act ⟨i, act.user_id, act.app_name, act.window_title⟩ = true := by
  simp [appKeyB]

/-- appIdFor at an activity's key is the find? of the key predicate. -/
theorem appIdFor_eq (st : Store) (act : ActivityIn) :
    appIdFor st act.user_id act.app_name act.window_title =
      (st.apps.find? (appKeyB act)).map AppRow.id := rfl

/-- add_activity changes the apps table exactly by the get-or-create rule:
nothing when the natural key exists, one appended fresh-id row otherwise;
the tracked table never changes. -/
theorem add_activity_apps (c : Clock) (st : Store) (act : ActivityIn) :
    (add_activity c st act).1.apps =
      (if (st.apps.find? (appKeyB act)).isSome then st.apps
       else st.apps ++ [⟨st.nextAppId, act.user_id, act.app_name, act.window_title⟩]) ∧
    (add_activity c st act).1.tracked = st.tracked ∧
    (add_activity c st act).1.nextAppId =
      (if (st.apps.find? (appKeyB act)).isSome then st.nextAppId
       else st.nextAppId + 1) := by
  unfold add_activity
  cases hf : st.apps.find? (appKeyB act) with
  | some r =>
    simp only [hf]
    cases hl : st.logs.find? (fun l =>
        l.app_id == r.id &&
        l.activity_date == to_date_iso c.today (some (effTs c act.timestamp))) with
    | some ex => simp [hl]
    | none => simp [hl]
  | none =>
    simp only [hf]
    rw [List.find?_append, hf]
    simp only [Option.none_or, List.find?_cons_of_pos _ (appKeyB_self act st.nextAppId),
      List.find?_nil]
    cases hl : st.logs.find? (fun l =>
        l.app_id == st.nextAppId &&
        l.activity_date == to_date_iso c.today (some (effTs c act.timestamp))) with
    | some ex => simp [hl]
    | none => simp [hl]

/-- One add_activity call preserves the store invariants and performs the
insert-or-accumulate step on the rows of its own (key, date): an absent row
appears with the posted duration, a present row has the duration added. -/
theorem add_activity_upsert (c : Clock) (st : Store) (act : ActivityIn)
    (hI : StoreInv st) :
    StoreInv (add_activity c st act).1 ∧
    ((keyRows (add_activity c st act).1 act.user_id act.app_name act.window_title
        (to_date_iso c.today (some (effTs c act.timestamp)))).map LogRow.duration =
      match (keyRows st act.user_id act.app_name act.window_title
        (to_date_iso c.today (some (effTs c act.timestamp)))).map LogRow.duration with
      | [] => [act.duration]
      | s :: _ => [s + act.duration]) := by
  obtain ⟨hT, hLt, hK, hR⟩ := hI
  unfold add_activity
  cases hf : st.apps.find? (appKeyB act) with
  | some r =>
    simp only [hf]
    have hkr : keyRows st act.user_id act.app_name act.window_title
        (to_date_iso c.today (some (effTs c act.timestamp))) =
        st.logs.filter (fun l => l.app_id == r.id &&
          l.activity_date == to_date_iso c.today (some (effTs c act.timestamp))) := by
      unfold keyRows
      rw [appIdFor_eq, hf]
      rfl
    cases hl : st.logs.find? (fun l => l.app_id == r.id &&
        l.activity_date == to_date_iso c.today (some (effTs c act.timestamp))) with
    | some ex =>
      have hpred := List.find?_some hl
      have hmem : ex ∈ st.logs.filter (fun l => l.app_id == r.id &&
          l.activity_date == to_date_iso c.today (some (effTs c act.timestamp))) :=
        List.mem_filter.mpr ⟨List.mem_of_find?_eq_some hl, hpred⟩
      have hfilter := filter_eq_singleton_of_pairwise hK hmem
      have hqu : ∀ x : LogRow,
          ((fun l => if l.id == ex.id then
              { l with duration := ex.duration + act.duration } else l) x).app_id = x.app_id ∧
          ((fun l => if l.id == ex.id then
              { l with duration := ex.duration + act.duration } else l) x).activity_date =
            x.activity_date := by
        intro x
        by_cases h : x.id == ex.id <;> simp [h]
      simp only [hl]
      constructor
      · refine ⟨hT, hLt, ?_, ?_⟩
        · show (st.logs.map _).Pairwise _
          rw [List.pairwise_map]
          refine hK.imp ?_
          intro a b hab hcon
          exact hab ⟨((hqu a).1.symm.trans hcon.1).trans (hqu b).1,
            ((hqu a).2.symm.trans hcon.2).trans (hqu b).2⟩
        · intro l hlmem
          obtain ⟨l0, hl0, rfl⟩ := List.mem_map.mp hlmem
          obtain ⟨rr, hrr, hid⟩ := hR l0 hl0
          exact ⟨rr, hrr, hid.trans (hqu l0).1.symm⟩
      · have happ : keyRows ⟨st.apps, st.nextAppId,
            st.logs.map (fun l => if l.id == ex.id then
              { l with duration := ex.duration + act.duration } else l),
            st.nextLogId, st.tracked⟩ act.user_id act.app_name act.window_title
            (to_date_iso c.today (some (effTs c act.timestamp))) =
            ((st.logs.filter (fun l => l.app_id == r.id &&
              l.activity_date == to_date_iso c.today (some (effTs c act.timestamp)))).map
              (fun l => if l.id == ex.id then
                { l with duration := ex.duration + act.duration } else l)) := by
          unfold keyRows
          rw [appIdFor_eq]
          dsimp only
          rw [hf]
          simp only [Option.map_some']
          rw [filter_map_pred]
          intro x
          by_cases h : x.id == ex.id <;> simp [h]
        rw [happ, hkr, hfilter]
        simp
    | none =>
      have hfilter : st.logs.filter (fun l => l.app_id == r.id &&
          l.activity_date == to_date_iso c.today (some (effTs c act.timestamp))) = [] :=
        List.filter_eq_nil_iff.mpr (List.find?_eq_none.mp hl)
      simp only [hl]
      constructor
      · refine ⟨hT, hLt, ?_, ?_⟩
        · rw [List.pairwise_append]
          refine ⟨hK, by simp, ?_⟩
          intro a ha b hb hcon
          have hb1 : b = (⟨st.nextLogId, r.id,
              to_date_iso c.today (some (effTs c act.timestamp)), act.duration⟩ : LogRow) := by
            simpa using hb
          have := List.find?_eq_none.mp hl a ha
          rw [hb1] at hcon
          simp only [Bool.and_eq_true, beq_iff_eq] at this
          exact this ⟨hcon.1, hcon.2⟩
        · intro l hlmem
          rcases List.mem_append.mp hlmem with hold | hnew
          · obtain ⟨rr, hrr, hid⟩ := hR l hold
            exact ⟨rr, hrr, hid⟩
          · have : l = (⟨st.nextLogId, r.id,
                to_date_iso c.today (some (effTs c act.timestamp)), act.duration⟩ : LogRow) := by
              simpa using hnew
            exact ⟨r, List.mem_of_find?_eq_some hf, by rw [this]⟩
      · have happ : keyRows ⟨st.apps, st.nextAppId,
            st.logs ++ [⟨st.nextLogId, r.id,
              to_date_iso c.today (some (effTs c act.timestamp)), act.duration⟩],
            st.nextLogId + 1, st.tracked⟩ act.user_id act.app_name act.window_title
            (to_date_iso c.today (some (effTs c act.timestamp))) =
            [⟨st.nextLogId, r.id,
              to_date_iso c.today (some (effTs c act.timestamp)), act.duration⟩] := by
          unfold keyRows
          rw [appIdFor_eq]
          dsimp only
          rw [hf]
          simp only [Option.map_some']
          rw [List.filter_append, hfilter]
          simp
        rw [happ, hkr, hfilter]
        simp
  | none =>
    simp only [hf]
    rw [List.find?_append, hf]
    simp only [Option.none_or, List.find?_cons_of_pos _ (appKeyB_self act st.nextAppId),
      List.find?_nil]
    have hnolog : st.logs.find? (fun l => l.app_id == st.nextAppId &&
        l.activity_date == to_date_iso c.today (some (effTs c act.timestamp))) = none := by
      rw [List.find?_eq_none]
      intro l hlmem hq
      obtain ⟨rr, hrr, hid⟩ := hR l hlmem
      have hlt := hLt rr hrr
      simp only [Bool.and_eq_true, beq_iff_eq] at hq
      omega
    have hfilter : st.logs.filter (fun l => l.app_id == st.nextAppId &&
        l.activity_date == to_date_iso c.today (some (effTs c act.timestamp))) = [] :=
      List.filter_eq_nil_iff.mpr (List.find?_eq_none.mp hnolog)
    have hkr : keyRows st act.user_id act.app_name act.window_title
        (to_date_iso c.today (some (effTs c act.timestamp))) = [] := by
      unfold keyRows
      rw [appIdFor_eq, hf]
      rfl
    simp only [hnolog]
    constructor
    · refine ⟨?_, ?_, ?_, ?_⟩
      · rw [List.pairwise_append]
        refine ⟨hT, by simp, ?_⟩
        intro a ha b hb hcon
        have hb1 : b = (⟨st.nextAppId, act.user_id, act.app_name,
            act.window_title⟩ : AppRow) := by simpa using hb
        have hfa := List.find?_eq_none.mp hf a ha
        rw [hb1] at hcon
        simp only [appKeyB, Bool.and_eq_true, beq_iff_eq] at hfa
        exact hfa ⟨⟨hcon.1, hcon.2.1⟩, hcon.2.2⟩
      · dsimp only
        intro rr hrr
        rcases List.mem_append.mp hrr with hold | hnew
        · have := hLt rr hold
          omega
        · have h5 : rr = (⟨st.nextAppId, act.user_id, act.app_name,
              act.window_title⟩ : AppRow) := by simpa using hnew
          rw [h5]
          show st.nextAppId < st.nextAppId + 1
          omega
      · rw [List.pairwise_append]
        refine ⟨hK, by simp, ?_⟩
        intro a ha b hb hcon
        have hb1 : b = (⟨st.nextLogId, st.nextAppId,
            to_date_iso c.today (some (effTs c act.timestamp)), act.duration⟩ : LogRow) := by
          simpa using hb
        obtain ⟨rr, hrr, hid⟩ := hR a ha
        have hlt := hLt rr hrr
        obtain ⟨hc1, -⟩ := hcon
        rw [hb1] at hc1
        dsimp only at hc1
        omega
      · intro l hlmem
        rcases List.mem_append.mp hlmem with hold | hnew
        · obtain ⟨rr, hrr, hid⟩ := hR l hold
          exact ⟨rr, List.mem_append_left _ hrr, hid⟩
        · have : l = (⟨st.nextLogId, st.nextAppId,
              to_date_iso c.today (some (effTs c act.timestamp)), act.duration⟩ : LogRow) := by
            simpa using hnew
          refine ⟨(⟨st.nextAppId, act.user_id, act.app_name,
              act.window_title⟩ : AppRow),
            List.mem_append_right _ (by simp), by rw [this]⟩
    · have happ : keyRows ⟨st.apps ++ [⟨st.nextAppId, act.user_id, act.app_name,
            act.window_title⟩], st.nextAppId + 1,
            st.logs ++ [⟨st.nextLogId, st.nextAppId,
              to_date_iso c.today (some (effTs c act.timestamp)), act.duration⟩],
            st.nextLogId + 1, st.tracked⟩ act.user_id act.app_name act.window_title
            (to_date_iso c.today (some (effTs c act.timestamp))) =
          [⟨st.nextLogId, st.nextAppId,
            to_date_iso c.today (some (effTs c act.timestamp)), act.duration⟩] := by
        unfold keyRows
        rw [appIdFor_eq]
        dsimp only
        rw [List.find?_append, hf]
        simp only [Option.none_or, List.find?_cons_of_pos _ (appKeyB_self act st.nextAppId),
          Option.map_some']
        rw [List.filter_append, hfilter]
        simp
      rw [happ, hkr]
      simp

/-- The fresh store satisfies the invariants. -/
theorem initStore_inv : StoreInv initStore := by
  constructor <;> simp [initStore]

/-- Folding further same-key same-date calls over a store that already holds
one row for the key adds every posted duration into that single row. -/
theorem runCalls_acc (c : Clock) (u a w d : String) :
    ∀ (calls : List (Int × Option String)) (st : Store) (s : Int),
      StoreInv st →
      (∀ p ∈ calls, to_date_iso c.today (some (effTs c p.2)) = d) →
      (keyRows st u a w d).map LogRow.duration = [s] →
      StoreInv (runCalls c u a w st calls) ∧
      (keyRows (runCalls c u a w st calls) u a w d).map LogRow.duration =
        [s + (calls.map Prod.fst).sum] := by
  intro calls
  induction calls with
  | nil =>
    intro st s hI hd hk
    refine ⟨hI, ?_⟩
    rw [show runCalls c u a w st [] = st from rfl, hk]
    simp
  | cons p rest ih =>
    intro st s hI hd hk
    have hdp := hd p (by simp)
    obtain ⟨hI', hkr'⟩ := add_activity_upsert c st ⟨u, a, w, p.1, p.2⟩ hI
    rw [show (⟨u, a, w, p.1, p.2⟩ : ActivityIn).timestamp = p.2 from rfl, hdp] at hkr'
    rw [hk] at hkr'
    have hnext := ih ((add_activity c st ⟨u, a, w, p.1, p.2⟩).1) (s + p.1) hI'
      (fun q hq => hd q (by simp [hq])) hkr'
    rw [show runCalls c u a w st (p :: rest) =
      runCalls c u a w ((add_activity c st ⟨u, a, w, p.1, p.2⟩).1) rest from rfl]
    refine ⟨hnext.1, ?_⟩
    rw [hnext.2]
    simp [add_assoc]

/-- The accumulation property from an initially row-free key. -/
theorem c1_helper (c : Clock) (st : Store) (u a w d : String)
    (calls : List (Int × Option String)) (hI : StoreInv st) (hne : calls ≠ [])
    (hdates : ∀ p ∈ calls, to_date_iso c.today (some (effTs c p.2)) = d)
    (hempty : keyRows st u a w d = []) :
    (keyRows (runCalls c u a w st calls) u a w d).map LogRow.duration =
      [(calls.map Prod.fst).sum] := by
  cases calls with
  | nil => exact absurd rfl hne
  | cons p rest =>
    have hdp := hdates p (by simp)
    obtain ⟨hI', hkr'⟩ := add_activity_upsert c st ⟨u, a, w, p.1, p.2⟩ hI
    rw [show (⟨u, a, w, p.1, p.2⟩ : ActivityIn).timestamp = p.2 from rfl, hdp] at hkr'
    rw [hempty] at hkr'
    have hnext := runCalls_acc c u a w d rest
      ((add_activity c st ⟨u, a, w, p.1, p.2⟩).1) p.1 hI'
      (fun q hq => hdates q (by simp [hq])) (by simpa using hkr')
    rw [show runCalls c u a w st (p :: rest) =
      runCalls c u a w ((add_activity c st ⟨u, a, w, p.1, p.2⟩).1) rest from rfl]
    rw [hnext.2]
    simp

/-- Claim C1: any finite nonempty sequence of successful recordUsage calls
sharing one (user_id, app_name, window_title) natural key whose timestamps
all resolve to one activity_date, run against a store holding no log row for
that key and date, leaves exactly one activity_logs row for the key's app
and that date, whose duration is the sum of the posted durations; and the
result is the same for every reordering of the calls. -/
theorem c1_idempotent_accumulation (c : Clock) (st : Store) (u a w d : String)
    (calls : List (Int × Option String)) (hI : StoreInv st) (hne : calls ≠ [])
    (hdates : ∀ p ∈ calls, to_date_iso c.today (some (effTs c p.2)) = d)
    (hempty : keyRows st u a w d = []) :
    (keyRows (runCalls c u a w st calls) u a w d).map LogRow.duration =
      [(calls.map Prod.fst).sum] ∧
    ∀ calls2, calls2.Perm calls →
      (keyRows (runCalls c u a w st calls2) u a w d).map LogRow.duration =
        [(calls.map Prod.fst).sum] := by
  refine ⟨c1_helper c st u a w d calls hI hne hdates hempty, ?_⟩
  intro calls2 hperm
  have h2 := c1_helper c st u a w d calls2 hI
    (by
      intro hnil
      rw [hnil] at hperm
      exact hne hperm.nil_eq.symm)
    (fun q hq => hdates q (hperm.mem_iff.mp hq)) hempty
  rw [h2]
  have := (hperm.map Prod.fst).sum_eq
  rw [this]

/-- Witness for C1: two posts of 120 and 30 seconds for one key on one date
leave a single row holding 150. -/
theorem c1_idempotent_accumulation_witness :
    (keyRows (runCalls ⟨"2025-06-01", "2025-06-01T12:00:00"⟩ "alice" "chrome.exe" "YouTube"
        initStore [(120, some "2025-06-01T09:00:00Z"), (30, some "2025-06-01T15:00:00Z")])
      "alice" "chrome.exe" "YouTube" "2025-06-01").map LogRow.duration = [150] := by
  have h := c1_idempotent_accumulation ⟨"2025-06-01", "2025-06-01T12:00:00"⟩ initStore
    "alice" "chrome.exe" "YouTube" "2025-06-01"
    [(120, some "2025-06-01T09:00:00Z"), (30, some "2025-06-01T15:00:00Z")]
    initStore_inv (by decide) (by decide) (by decide)
  rw [h.1]
  decide

/-- Claim C2 (the code violates it): POST /activity/ accepts a negative
duration.  The call returns success, the store changes by a new log row
carrying the negative duration, and a subsequent negative post decrements an
existing daily total from 100 to 95. -/
theorem c2_negative_duration_accepted :
    (add_activity ⟨"2025-06-01", "2025-06-01T12:00:00"⟩ initStore
      ⟨"u", "a", "w", -5, some "2025-06-01T10:00:00"⟩).2 = ActResp.ok 1 "2025-06-01" ∧
    (add_activity ⟨"2025-06-01", "2025-06-01T12:00:00"⟩ initStore
      ⟨"u", "a", "w", -5, some "2025-06-01T10:00:00"⟩).1.logs =
      [⟨1, 1, "2025-06-01", -5⟩] ∧
    (add_activity ⟨"2025-06-01", "2025-06-01T12:00:00"⟩
      (add_activity ⟨"2025-06-01", "2025-06-01T12:00:00"⟩ initStore
        ⟨"u", "a", "w", 100, some "2025-06-01T10:00:00"⟩).1
      ⟨"u", "a", "w", -5, some "2025-06-01T11:00:00"⟩).1.logs =
      [⟨1, 1, "2025-06-01", 95⟩] := by
  decide

/-- A string beginning with a ten-character date is never empty. -/
theorem mk_append_ne_empty {d : String} (hd : validYmd d = true) (t : List Char) :
    String.mk (d.data ++ t) ≠ "" := by
  intro he
  have h2 : d.data ++ t = [] := by simpa using congrArg String.data he
  rcases List.append_eq_nil.mp h2 with ⟨h3, -⟩
  have := validYmdL_length hd
  rw [h3] at this
  simp at this

/-- Claim C4: two recordUsage timestamps on the same calendar date truncate
to the same activity_date (the date itself), so the two calls upsert the one
activity_logs row of that (app, date) — shown by running both calls and
finding a single row holding the summed duration; an absent timestamp and a
fully unparseable timestamp both substitute the current local date. -/
theorem c4_date_truncation (today : String) (d : String) (t1 t2 : List Char)
    (hd : validYmd d = true) :
    to_date_iso today (some (String.mk (d.data ++ t1))) =
      to_date_iso today (some (String.mk (d.data ++ t2))) ∧
    to_date_iso today (some (String.mk (d.data ++ t1))) = d ∧
    to_date_iso today none = today ∧
    (∀ s, s ≠ "" → fromisoDate s = none → strptimeYmd (s.data.take 10) = none →
      to_date_iso today (some s) = today) ∧
    (∀ (c : Clock) (st : Store) (u a w : String) (dur1 dur2 : Int),
      StoreInv st → keyRows st u a w d = [] →
      (keyRows (runCalls c u a w st
          [(dur1, some (String.mk (d.data ++ t1))),
           (dur2, some (String.mk (d.data ++ t2)))])
        u a w d).map LogRow.duration = [dur1 + dur2]) := by
  refine ⟨?_, to_date_iso_append today d t1 hd, rfl, ?_, ?_⟩
  · rw [to_date_iso_append today d t1 hd, to_date_iso_append today d t2 hd]
  · intro s hs hf hp
    simp only [to_date_iso]
    rw [if_neg hs, hf, hp]
  · intro c st u a w dur1 dur2 hI hkey
    have hrun := c1_helper c st u a w d
      [(dur1, some (String.mk (d.data ++ t1))), (dur2, some (String.mk (d.data ++ t2)))]
      hI (by simp) ?_ hkey
    · rw [hrun]
      simp
    · intro p hp
      simp only [List.mem_cons, List.mem_singleton] at hp
      rcases hp with rfl | hp2
      · show to_date_iso c.today (some (effTs c (some (String.mk (d.data ++ t1))))) = d
        rw [show effTs c (some (String.mk (d.data ++ t1))) = String.mk (d.data ++ t1) by
          simp [effTs, mk_append_ne_empty hd t1]]
        exact to_date_iso_append c.today d t1 hd
      · rcases hp2 with rfl | h3
        · show to_date_iso c.today (some (effTs c (some (String.mk (d.data ++ t2))))) = d
          rw [show effTs c (some (String.mk (d.data ++ t2))) = String.mk (d.data ++ t2) by
            simp [effTs, mk_append_ne_empty hd t2]]
          exact to_date_iso_append c.today d t2 hd
        · simp at h3

/-- Witness for C4 at the spec's two example timestamps. -/
theorem c4_date_truncation_witness :
    to_date_iso "2025-10-12" (some "2025-09-12T23:59:00Z") =
      to_date_iso "2025-10-12" (some "2025-09-12T00:00:01Z") ∧
    to_date_iso "2025-10-12" (some "2025-09-12T23:59:00Z") = "2025-09-12" := by
  have h := c4_date_truncation "2025-10-12" "2025-09-12"
    "T23:59:00Z".data "T00:00:01Z".data (by decide)
  exact ⟨h.1, h.2.1⟩

/-! ## Read-only handlers return the store unchanged -/

/-- GET /stats/most-used/ leaves the store as it was. -/
theorem stats_most_used_store (st : Store) (today : String) (days : Nat) :
    (stats_most_used st today days).1 = st := by
  simp only [stats_most_used]
  split <;> rfl

/-- POST /api/chatbot/query leaves the store as it was. -/
theorem chatbot_query_store (st : Store) (today : String) (q : String) :
    (chatbot_query st today q).1 = st := by
  simp only [chatbot_query]
  split <;> first
    | rfl
    | (split_ifs <;> rfl)

/-- Every request preserves the store invariants. -/
theorem step_inv (st : Store) (op : Op) (hI : StoreInv st) : StoreInv (step st op) := by
  cases op with
  | activity c a => exact (add_activity_upsert c st a hI).1
  | addIdent x =>
    show StoreInv (add_identifier st x).1
    unfold add_identifier
    split <;> exact ⟨hI.appsTriples, hI.appsIdLt, hI.logsKeys, hI.logsRef⟩
  | removeIdent x =>
    show StoreInv (remove_identifier st x).1
    unfold remove_identifier
    split <;> exact ⟨hI.appsTriples, hI.appsIdLt, hI.logsKeys, hI.logsRef⟩
  | listApps => exact hI
  | listLogs i sd ed => exact hI
  | listIdents => exact hI
  | mostUsed t d =>
    show StoreInv (stats_most_used st t d).1
    rw [stats_most_used_store]
    exact hI
  | chat t q =>
    show StoreInv (chatbot_query st t q).1
    rw [chatbot_query_store]
    exact hI

/-- Every reachable store satisfies the invariants. -/
theorem reachable_inv {st : Store} (h : Reachable st) : StoreInv st := by
  induction h with
  | init => exact initStore_inv
  | next op h ih => exact step_inv _ op ih

/-- Claim C9: in every reachable store the (user_id, app_name, window_title)
triple identifies at most one apps row; no request removes or rewrites an
existing apps row (the old table is always a prefix of the new one); and a
recordUsage call appends a new apps row exactly when its triple is unseen,
never otherwise. -/
theorem c9_apps_natural_key (st : Store) (h : Reachable st) (op : Op) :
    st.apps.Pairwise (fun r1 r2 =>
      ¬(r1.user_id = r2.user_id ∧ r1.app_name = r2.app_name ∧
        r1.window_title = r2.window_title)) ∧
    List.IsPrefix st.apps (step st op).apps ∧
    (∀ (c : Clock) (a : ActivityIn), (step st (Op.activity c a)).apps =
      if (appIdFor st a.user_id a.app_name a.window_title).isSome then st.apps
      else st.apps ++ [⟨st.nextAppId, a.user_id, a.app_name, a.window_title⟩]) := by
  have happs : ∀ (c : Clock) (a : ActivityIn), (step st (Op.activity c a)).apps =
      if (appIdFor st a.user_id a.app_name a.window_title).isSome then st.apps
      else st.apps ++ [⟨st.nextAppId, a.user_id, a.app_name, a.window_title⟩] := by
    intro c a
    show (add_activity c st a).1.apps = _
    rw [(add_activity_apps c st a).1, appIdFor_eq]
    by_cases hs : (st.apps.find? (appKeyB a)).isSome <;> simp [hs]
  refine ⟨(reachable_inv h).appsTriples, ?_, happs⟩
  cases op with
  | activity c a =>
    rw [happs c a]
    by_cases hs : (appIdFor st a.user_id a.app_name a.window_title).isSome <;> simp [hs]
  | addIdent x =>
    show List.IsPrefix st.apps (add_identifier st x).1.apps
    unfold add_identifier
    split <;> exact List.prefix_refl _
  | removeIdent x =>
    show List.IsPrefix st.apps (remove_identifier st x).1.apps
    unfold remove_identifier
    split <;> exact List.prefix_refl _
  | listApps => exact List.prefix_refl _
  | listLogs i sd ed => exact List.prefix_refl _
  | listIdents => exact List.prefix_refl _
  | mostUsed t d =>
    show List.IsPrefix st.apps (stats_most_used st t d).1.apps
    rw [stats_most_used_store]
  | chat t q =>
    show List.IsPrefix st.apps (chatbot_query st t q).1.apps
    rw [chatbot_query_store]

/-- Witness for C9 at the fresh store and a registry request. -/
theorem c9_apps_natural_key_witness :
    initStore.apps.Pairwise (fun r1 r2 =>
      ¬(r1.user_id = r2.user_id ∧ r1.app_name = r2.app_name ∧
        r1.window_title = r2.window_title)) ∧
    List.IsPrefix initStore.apps (step initStore (Op.addIdent "slack")).apps ∧
    (∀ (c : Clock) (a : ActivityIn), (step initStore (Op.activity c a)).apps =
      if (appIdFor initStore a.user_id a.app_name a.window_title).isSome then initStore.apps
      else initStore.apps ++ [⟨initStore.nextAppId, a.user_id, a.app_name,
        a.window_title⟩]) :=
  c9_apps_natural_key initStore Reachable.init (Op.addIdent "slack")

/-- Claim C8: the analytics operations — GET /stats/most-used/ and
POST /api/chatbot/query — are read-only: for every store state and every
input, the store (apps, activity_logs and tracked_identifiers tables and
both id counters) is identical before and after the call. -/
theorem c8_analytics_read_only (st : Store) (today : String) (days : Nat) (q : String) :
    (stats_most_used st today days).1 = st ∧ (chatbot_query st today q).1 = st :=
  ⟨stats_most_used_store st today days, chatbot_query_store st today q⟩

/-- Claim C7: registry add fails with 400 exactly when the identifier is
present, leaving the store untouched; on success it appends exactly that
identifier.  Registry remove fails with 404 exactly when the identifier is
absent, leaving the store untouched; on success it deletes exactly the rows
equal to that identifier. -/
theorem c7_registry (st : Store) (x : String) :
    ((add_identifier st x).2 = IdResp.err 400 ↔ x ∈ st.tracked) ∧
    (x ∈ st.tracked → add_identifier st x = (st, IdResp.err 400)) ∧
    (x ∉ st.tracked →
      (add_identifier st x).1.tracked = st.tracked ++ [x] ∧
      (add_identifier st x).1.apps = st.apps ∧
      (add_identifier st x).1.logs = st.logs ∧
      (add_identifier st x).2 = IdResp.added x) ∧
    ((remove_identifier st x).2 = IdResp.err 404 ↔ x ∉ st.tracked) ∧
    (x ∉ st.tracked → remove_identifier st x = (st, IdResp.err 404)) ∧
    (x ∈ st.tracked →
      (remove_identifier st x).1.tracked = st.tracked.filter (fun t => t ≠ x) ∧
      (remove_identifier st x).1.apps = st.apps ∧
      (remove_identifier st x).1.logs = st.logs ∧
      (remove_identifier st x).2 = IdResp.removed x) := by
  by_cases hm : x ∈ st.tracked
  · have hc : st.tracked.contains x = true := by simp [hm]
    refine ⟨?_, ?_, ?_, ?_, ?_, ?_⟩
    · unfold add_identifier
      rw [if_pos hc]
      simp [hm]
    · intro _
      unfold add_identifier
      rw [if_pos hc]
    · intro hno
      exact absurd hm hno
    · unfold remove_identifier
      rw [if_pos hc]
      simp [hm]
    · intro hno
      exact absurd hm hno
    · intro _
      unfold remove_identifier
      rw [if_pos hc]
      exact ⟨rfl, rfl, rfl, rfl⟩
  · have hc : st.tracked.contains x = false := by simp [hm]
    have hcn : ¬st.tracked.contains x = true := by simp [hm]
    refine ⟨?_, ?_, ?_, ?_, ?_, ?_⟩
    · unfold add_identifier
      rw [if_neg hcn]
      simp [hm]
    · intro hyes
      exact absurd hyes hm
    · intro _
      unfold add_identifier
      rw [if_neg hcn]
      exact ⟨rfl, rfl, rfl, rfl⟩
    · unfold remove_identifier
      rw [if_neg hcn]
      simpa using hm
    · intro _
      unfold remove_identifier
      rw [if_neg hcn]
      have hfix : st.tracked.filter (fun t => t ≠ x) = st.tracked := by
        rw [List.filter_eq_self]
        intro a ha
        simp
        exact fun he => hm (he ▸ ha)
      rw [hfix]
    · intro hyes
      exact absurd hyes hm

/-- Witness for C7 on a registry holding exactly "slack". -/
theorem c7_registry_witness :
    (add_identifier ⟨[], 1, [], 1, ["slack"]⟩ "slack").2 = IdResp.err 400 ∧
    (add_identifier ⟨[], 1, [], 1, ["slack"]⟩ "zoom").1.tracked = ["slack", "zoom"] ∧
    (remove_identifier ⟨[], 1, [], 1, ["slack"]⟩ "zoom").2 = IdResp.err 404 ∧
    (remove_identifier ⟨[], 1, [], 1, ["slack"]⟩ "slack").1.tracked = [] := by
  have h1 := c7_registry ⟨[], 1, [], 1, ["slack"]⟩ "slack"
  have h2 := c7_registry ⟨[], 1, [], 1, ["slack"]⟩ "zoom"
  refine ⟨h1.1.mpr (by decide), ?_, ?_, ?_⟩
  · rw [(h2.2.2.1 (by decide)).1]
    decide
  · exact h2.2.2.2.1.mpr (by decide)
  · rw [(h1.2.2.2.2.2 (by decide)).1]
    decide

/-! ## GET /stats/most-used/: the empty-window claim -/

/-- Modelled from the spec's words in claim C5: membership of a date in the
two-sided window [today − (days − 1), today].  The SQL in stats_most_used
applies only the lower bound, which is what the counterexample exhibits. -/
def specWindowMem (today : String) (days : Nat) (ds : String) : Bool :=
  strLe (isoSubDays today (days - 1)) ds && strLe ds today

/-- Claim C5 as stated is false on the code: with today = 2025-10-12 and
days = 7, a store whose only log row is dated 2026-01-01 has no row in the
claimed window [2025-10-06, 2025-10-12], yet mostUsed returns that app with
total 100 instead of the zero-value result, because the query has no upper
date bound. -/
theorem c5_counterexample :
    (∀ l ∈ (⟨[⟨1, "u", "a", "w"⟩], 2, [⟨1, 1, "2026-01-01", 100⟩], 2, []⟩ : Store).logs,
      specWindowMem "2025-10-12" 7 l.activity_date = false) ∧
    (stats_most_used ⟨[⟨1, "u", "a", "w"⟩], 2, [⟨1, 1, "2026-01-01", 100⟩], 2, []⟩
        "2025-10-12" 7).2 ≠
      ⟨none, none, none, 0, []⟩ := by
  decide

/-- A joined row's log component is a row of the logs table. -/
theorem joinLogs_log_mem {st : Store} {r : JoinedRow} (h : r ∈ joinLogs st) :
    r.log ∈ st.logs := by
  unfold joinLogs at h
  rw [List.mem_flatMap] at h
  obtain ⟨l, hl, hr⟩ := h
  obtain ⟨a, ha, rfl⟩ := List.mem_map.mp hr
  exact hl

/-- Claim C5, amended to the bound the code applies: for every days in
[1, 365], if no activity_logs row has an activity_date at or after
today − (days − 1) (the SQL has no upper bound, so future-dated rows count
as in range), then mostUsed returns the zero-value result with app_id none,
total_duration 0 and empty top_users, rather than failing. -/
theorem c5_most_used_empty (st : Store) (today : String) (days : Nat)
    (h1 : 1 ≤ days) (h2 : days ≤ 365)
    (h : ∀ l ∈ st.logs, strLe (isoSubDays today (days - 1)) l.activity_date = false) :
    stats_most_used st today days = (st, ⟨none, none, none, 0, []⟩) := by
  have hfilter : (joinLogs st).filter
      (fun r => strLe (isoSubDays today (days - 1)) r.log.activity_date) = [] := by
    rw [List.filter_eq_nil_iff]
    intro r hr
    simp [h r.log (joinLogs_log_mem hr)]
  simp only [stats_most_used]
  rw [hfilter]
  rfl

/-- Witness for the amended C5 on an empty store. -/
theorem c5_most_used_empty_witness :
    stats_most_used initStore "2025-10-12" 7 =
      (initStore, ⟨none, none, none, 0, []⟩) :=
  c5_most_used_empty initStore "2025-10-12" 7 (by decide) (by decide)
    (by intro l hl; simp [initStore] at hl)

/-- Claim C6: the chatbot tries its rules in the fixed source order — (a)
most-used keywords, (b) duration-for-app, (c) top-users-for-app, (d)
free-text search, (e) help — and the first match wins; the text
"top apps last 14 days" selects the most-used intent with a 14-day window
in every store state, returning the top-apps answer and never the free-text
fallback. -/
theorem c6_intent_priority (st : Store) (today : String) :
    classify "top apps last 14 days" = Intent.mostUsed 14 ∧
    chatbot_query st today "top apps last 14 days" =
      (st, if (topAppsRows st today 14).isEmpty
        then ChatResult.answer (ChatAnswer.noActivity 14)
        else ChatResult.answer (ChatAnswer.topApps 14 (topAppsRows st today 14))) := by
  have hcl : classify "top apps last 14 days" = Intent.mostUsed 14 := by decide
  refine ⟨hcl, ?_⟩
  simp only [chatbot_query, hcl]
  by_cases he : (topAppsRows st today 14).isEmpty <;> simp [he]

/-! ## Migration (claim C3) -/

/-- Claim C3 (migration modelled from the spec, absent from src/): when the
legacy table is present and the archived marker is absent, migration reads
every legacy row, groups-and-sums by (user_id, app_name, window_title,
truncated date), writes each group through the recordUsage upsert and
archives the legacy table; running migration again is the identity, so
nothing is re-migrated or double-counted; and on the spec's two example rows
a single activity_logs row with duration 150 results. -/
theorem c3_migration (c : Clock) (ms : MigStore) (rows : List LegacyRow) :
    (ms.legacy = some rows → ms.archived = none →
      (migrate c ms).archived = some rows ∧ (migrate c ms).legacy = none ∧
      (migrate c ms).store = (legacyGroups c rows).foldl
        (fun s g => (add_activity c s ⟨g.1.1, g.1.2.1, g.1.2.2.1, g.2,
          some g.1.2.2.2⟩).1) ms.store) ∧
    migrate c (migrate c ms) = migrate c ms ∧
    (migrate ⟨"2025-06-01", "2025-06-01T12:00:00"⟩
        ⟨initStore, some [⟨"u", "a", "w", 100, some "2025-01-01T10:00"⟩,
                          ⟨"u", "a", "w", 50, some "2025-01-01T18:00"⟩], none⟩).store.logs =
      [⟨1, 1, "2025-01-01", 150⟩] := by
  refine ⟨?_, ?_, by decide⟩
  · intro h1 h2
    unfold migrate
    rw [h1, h2]
    exact ⟨rfl, rfl, rfl⟩
  · rcases ms with ⟨st, lg, ar⟩
    cases lg <;> cases ar <;> simp [migrate]

/-- Witness for C3 at the spec's example migration input. -/
theorem c3_migration_witness :
    (migrate ⟨"2025-06-01", "2025-06-01T12:00:00"⟩
      ⟨initStore, some [⟨"u", "a", "w", 100, some "2025-01-01T10:00"⟩,
                        ⟨"u", "a", "w", 50, some "2025-01-01T18:00"⟩], none⟩).archived =
      some [⟨"u", "a", "w", 100, some "2025-01-01T10:00"⟩,
            ⟨"u", "a", "w", 50, some "2025-01-01T18:00"⟩] ∧
    (migrate ⟨"2025-06-01", "2025-06-01T12:00:00"⟩
      ⟨initStore, some [⟨"u", "a", "w", 100, some "2025-01-01T10:00"⟩,
                        ⟨"u", "a", "w", 50, some "2025-01-01T18:00"⟩], none⟩).legacy =
      none := by
  have h := c3_migration ⟨"2025-06-01", "2025-06-01T12:00:00"⟩
    ⟨initStore, some [⟨"u", "a", "w", 100, some "2025-01-01T10:00"⟩,
                      ⟨"u", "a", "w", 50, some "2025-01-01T18:00"⟩], none⟩
    [⟨"u", "a", "w", 100, some "2025-01-01T10:00"⟩,
     ⟨"u", "a", "w", 50, some "2025-01-01T18:00"⟩]
  exact ⟨(h.1 rfl rfl).1, (h.1 rfl rfl).2.1⟩
